import Mathlib

/-! Shallow embedding of the schedule-tree optimizer interface declared in
`include/polly/ScheduleOptimizer.h`.  The header ships only declarations, so
every operational definition below is reconstructed from the documentation
comments of the header and from the accompanying specification of the
subsystem (tiling, prevectorization, matmul pattern matching, profitability,
and the per-band driver). -/

/-- One schedule dimension of a band: its iteration extent together with the
`permutable` and `coincident` flags of the spec's data model. -/
structure Dim where
  extent : Nat
  permutable : Bool
  coincident : Bool
deriving DecidableEq

/-- Default dimension used with `List.getD`. -/
def dimDflt : Dim := ⟨0, false, false⟩

/-- Modelled from the spec: an access descriptor (the missing implementation
of polly's MemoryAccess view) — a read/write kind plus one affine subscript
per array dimension, each subscript given by its integer coefficients over
the statement's loop dimensions. -/
structure MemoryAccess where
  isWrite : Bool
  subscripts : List (List Int)
deriving DecidableEq

/-- A statement scheduled under a band: its ordered list of memory accesses. -/
structure ScopStmt where
  accesses : List MemoryAccess
deriving DecidableEq

/-- Payload of a band node: schedule dimensions, the statements the band
schedules, and the isolate option set by `isolateFullPartialTiles`. -/
structure BandInfo where
  dims : List Dim
  stmts : List ScopStmt
  isolateOpt : Bool
deriving DecidableEq

/-- Modelled from the spec: the schedule tree (band, sequence, mark and leaf
nodes) that the header consumes as the opaque `isl_schedule_node`. -/
inductive STree where
  | leaf : STree
  | band : BandInfo → STree → STree
  | seq2 : STree → STree → STree
  | mark : String → STree → STree
deriving DecidableEq

/-- Number of tiles covering an extent of `N` iterations with tiles of
nominal size `T` (the last tile may be clipped). -/
def numTiles (N T : Nat) : Nat := (N + T - 1) / T

/-- Trip count of tile `q`: the nominal size `T` clipped at the original
dimension's bound `N`. -/
def tileTrip (N T q : Nat) : Nat := min T (N - q * T)

/-- The iteration values covered by tile `q`, in execution order. -/
def tilePoints (N T q : Nat) : List Nat :=
  (List.range (tileTrip N T q)).map (fun r => q * T + r)

/-- The (tile, point) coordinate pairs of the first `k` tiles, in the
lexicographic execution order of the produced tile/point band pair. -/
def pairList (N T : Nat) : Nat → List (Nat × Nat)
  | 0 => []
  | k + 1 => pairList N T k ++ (List.range (tileTrip N T k)).map (fun r => (k, r))

/-- All (tile, point) coordinate pairs of a dimension of extent `N` tiled with
size `T`, in execution order, with value ranges clipped at the bound. -/
def tilePairs (N T : Nat) : List (Nat × Nat) := pairList N T (numTiles N T)

/-- The tile size used for dimension `d`: `TileSizes[d]`, or `DefaultTileSize`
for dimensions not covered by the vector. -/
def tileSizeFor (TileSizes : List Nat) (DefaultTileSize d : Nat) : Nat :=
  TileSizes.getD d DefaultTileSize

/-- Dimensions of the outer (tile) band: each extent becomes the number of
tile origins; the permutable/coincident flags are inherited. -/
def tileDims (TileSizes : List Nat) (DefaultTileSize : Nat) : List Dim → List Dim
  | [] => []
  | dm :: rest =>
    { dm with extent := numTiles dm.extent (TileSizes.headD DefaultTileSize) }
      :: tileDims TileSizes.tail DefaultTileSize rest

/-- Dimensions of the inner (point) band: each extent is the nominal tile
size (boundary tiles are clipped semantically, see `tileTrip`). -/
def pointDims (TileSizes : List Nat) (DefaultTileSize : Nat) : List Dim → List Dim
  | [] => []
  | dm :: rest =>
    { dm with extent := TileSizes.headD DefaultTileSize }
      :: pointDims TileSizes.tail DefaultTileSize rest

/-- Band payload of the outer (tile) band produced by tiling. -/
def tileBandInfo (TileSizes : List Nat) (DefaultTileSize : Nat) (b : BandInfo) : BandInfo :=
  { b with dims := tileDims TileSizes DefaultTileSize b.dims }

/-- Band payload of the inner (point) band produced by tiling. -/
def pointBandInfo (TileSizes : List Nat) (DefaultTileSize : Nat) (b : BandInfo) : BandInfo :=
  { b with dims := pointDims TileSizes DefaultTileSize b.dims }

/-- Modelled from the spec: `tileNode` (implementation not in the header) —
splits a band into an outer tile band and an inner point band using
`TileSizes` (with `DefaultTileSize` past the vector's length) and attaches
the `Identifier` provenance tags to the new band pair. -/
def tileNode (Node : STree) (Identifier : String) (TileSizes : List Nat)
    (DefaultTileSize : Nat) : STree :=
  match Node with
  | .band b c =>
    .mark (Identifier ++ " - Tiles")
      (.band (tileBandInfo TileSizes DefaultTileSize b)
        (.mark (Identifier ++ " - Points")
          (.band (pointBandInfo TileSizes DefaultTileSize b) c)))
  | t => t

/-- Indices of the tiles of the "full" region: every instance has exactly
`W` point iterations. -/
def fullTileIdxs (N W : Nat) : List Nat :=
  (List.range (numTiles N W)).filter (fun q => decide (q * W + W ≤ N))

/-- Indices of the tiles of the remainder region (the boundary tiles that
are not full). -/
def remTileIdxs (N W : Nat) : List Nat :=
  (List.range (numTiles N W)).filter (fun q => !decide (q * W + W ≤ N))

/-- Does the subtree contain a band node anywhere? -/
def containsBand : STree → Bool
  | .leaf => false
  | .band _ _ => true
  | .seq2 a b => containsBand a || containsBand b
  | .mark _ t => containsBand t

/-- A node is an eligible band when it is a band with at least one
permutable dimension. -/
def eligibleBand : STree → Bool
  | .band b _ => b.dims.any (fun dm => dm.permutable)
  | _ => false

/-- Does the subtree contain an eligible band anywhere? -/
def hasEligible : STree → Bool
  | .leaf => false
  | .band b c => b.dims.any (fun dm => dm.permutable) || hasEligible c
  | .seq2 a b => hasEligible a || hasEligible b
  | .mark _ t => hasEligible t

/-- All nodes of a subtree (the node itself and its descendants). -/
def subtreesList : STree → List STree
  | .leaf => [.leaf]
  | .band b c => .band b c :: subtreesList c
  | .seq2 a b => .seq2 a b :: (subtreesList a ++ subtreesList b)
  | .mark m t => .mark m t :: subtreesList t

/-- Modelled from the spec: `isTileableBandNode` (implementation not in the
header) — true iff the node is a band with at least one permutable dimension
that is innermost in the sense that no descendant band is itself eligible. -/
def isTileableBandNode (Node : STree) : Bool :=
  match Node with
  | .band b c => b.dims.any (fun dm => dm.permutable) && !hasEligible c
  | _ => false

/-- A subscript is a stride-0-or-1 function of the loop dimensions when every
coefficient is 0 or 1. -/
def strideOk01 (s : List Int) : Bool := s.all (fun z => z == 0 || z == 1)

/-- The verdict of the access-pattern matcher: the matched read accesses and
the single write access. -/
structure MatMulCandidate where
  reads : List MemoryAccess
  write : MemoryAccess
deriving DecidableEq

/-- Modelled from the spec: the matmul matcher behind `isMatrMultPattern`
(implementation not in the header) — returns a candidate only for an
innermost band with exactly one statement, exactly three loop dimensions,
all accesses but the last being reads whose subscripts are stride-0/1
functions of the dimensions (after interchange), the last access being a
write, and no write subscript referencing the reduction (innermost)
dimension (index 2). -/
def matchMatMul (Node : STree) : Option MatMulCandidate :=
  match Node with
  | .band b c =>
    if containsBand c then none
    else
      match b.stmts with
      | [st] =>
        if b.dims.length == 3 then
          match st.accesses.getLast? with
          | some w =>
            if w.isWrite
                && (st.accesses.dropLast.all fun a =>
                      !a.isWrite && a.subscripts.all strideOk01)
                && (w.subscripts.all fun s => s.getD 2 0 == 0) then
              some ⟨st.accesses.dropLast, w⟩
            else none
          | none => none
        else none
      | _ => none
  | _ => none

/-- `isMatrMultPattern` of the header: does the matcher produce a candidate? -/
def isMatrMultPattern (Node : STree) : Bool := (matchMatMul Node).isSome

/-- The declarative matmul conditions listed in the header's documentation of
`isMatrMultPattern` (conditions 1-5). -/
def MatMulConds (t : STree) : Prop :=
  ∃ b c st w, t = .band b c ∧ b.stmts = [st] ∧ b.dims.length = 3 ∧
    st.accesses.getLast? = some w ∧ w.isWrite = true ∧
    (∀ a ∈ st.accesses.dropLast,
      a.isWrite = false ∧ ∀ s ∈ a.subscripts, ∀ z ∈ s, z = 0 ∨ z = 1) ∧
    (∀ s ∈ w.subscripts, s.getD 2 0 = 0)

/-- Modelled from the spec: `isolateFullPartialTiles` (implementation not in
the header) — sets the isolate option on the band that is the parent of the
band containing the vector loop; the semantic content of the isolation is
given by `fullTileIdxs`, `remTileIdxs` and `tilePoints`. -/
def isolateFullPartialTiles (Node : STree) (VectorWidth : Nat) : STree :=
  match Node with
  | .mark m t => .mark m (isolateFullPartialTiles t VectorWidth)
  | .band b c => .band { b with isolateOpt := true } c
  | t => t

/-- Modelled from the spec: `prevectSchedBand` (implementation not in the
header) — splits out dimension `DimToVectorize`, tiles it with size
`VectorWidth`, and sinks the resulting point loop innermost, tagging the
result as a SIMD subtree. -/
def prevectSchedBand (Node : STree) (DimToVectorize : Nat) (VectorWidth : Nat) : STree :=
  match Node with
  | .band b c =>
    let old := b.dims.getD DimToVectorize dimDflt
    let newDim : Dim := { old with extent := numTiles old.extent VectorWidth }
    .mark "SIMD"
      (.band { b with dims := b.dims.set DimToVectorize newDim }
        (.band ⟨[⟨VectorWidth, false, true⟩], b.stmts, false⟩ c))
  | t => t

/-- The band payload left above the sunk point loop: dimension `d` now
enumerates the vector-tile origins. -/
def prevectTileBandInfo (b : BandInfo) (d W : Nat) : BandInfo :=
  { b with dims := b.dims.set d { b.dims.getD d dimDflt with extent := numTiles (b.dims.getD d dimDflt).extent W } }

/-- Prevectorize the innermost dimension of a band and isolate the full
tiles, as the driver's step 3 prescribes. -/
def prevectVec (VectorWidth : Nat) (t : STree) : STree :=
  match t with
  | .band b c =>
    isolateFullPartialTiles
      (prevectSchedBand (.band b c) (b.dims.length - 1) VectorWidth) VectorWidth
  | t => t

/-- Apply prevectorization to the point loop of a freshly tiled band pair, or
to the band itself when tiling was skipped. -/
def prevectPointLoop (VectorWidth : Nat) (t : STree) : STree :=
  match t with
  | .mark a (.band tb (.mark b2 pt)) => .mark a (.band tb (.mark b2 (prevectVec VectorWidth pt)))
  | t => prevectVec VectorWidth t

/-- Modelled from the spec: the whole-region schedule summary used by the
profitability estimate — the count of non-unit strides (locality) and the
count of coincident dimensions (parallelism).  Stands in for the opaque
`isl_union_map` schedule of the header. -/
structure UnionMap where
  nonUnitStrides : Nat
  coincidentDims : Nat
deriving DecidableEq

/-- The region being optimized, carrying its currently accepted schedule. -/
structure Scop where
  schedule : UnionMap
deriving DecidableEq

/-- Modelled from the spec: `isProfitableSchedule` (implementation not in the
header) — accepts the candidate only when it is expected to be no worse than
the region's current schedule on both coefficients, conservatively rejecting
any ambiguous comparison. -/
def isProfitableSchedule (S : Scop) (NewSchedule : UnionMap) : Bool :=
  decide (NewSchedule.nonUnitStrides ≤ S.schedule.nonUnitStrides)
    && decide (S.schedule.coincidentDims ≤ NewSchedule.coincidentDims)

/-- The target cost model handle of the header (`TargetTransformInfo`),
read-only and optional. -/
structure TargetTransformInfo where
  vectorRegisterBitWidth : Nat
deriving DecidableEq

/-- The default vector width: per the header, currently constant and not yet
target specific. -/
def prevectorWidth : Nat := 4

/-- Default value of the process-wide disable-tiling toggle. -/
def DisablePollyTiling : Bool := false

/-- Explicit configuration surface (the spec turns the global toggles into
explicit configuration). -/
structure Options where
  disableTiling : Bool := DisablePollyTiling
  vectorize : Bool := true
  tileSizes : List Nat := []
  defaultTileSize : Nat := 32
deriving DecidableEq

/-- Configuration threaded to the per-band dispatch. -/
structure Config where
  disableTiling : Bool
  vectorize : Bool
  vectorWidth : Nat
  tileSizes : List Nat
  defaultTileSize : Nat
  registerTileSizes : List Nat
  registerDefaultTileSize : Nat
deriving DecidableEq

/-- Build the driver configuration.  The vector width is the constant
`prevectorWidth` whether or not a cost model is supplied (the header: the
default width is currently constant and not target specific); the register
tile sizes are small fixed sizes per the BLIS recipe. -/
def mkConfig (opts : Options) (TTI : Option TargetTransformInfo) : Config :=
  { disableTiling := opts.disableTiling
    vectorize := opts.vectorize
    vectorWidth := prevectorWidth
    tileSizes := opts.tileSizes
    defaultTileSize := opts.defaultTileSize
    registerTileSizes := [4, 8]
    registerDefaultTileSize := 2 }

/-- Modelled from the spec: `applyRegisterTiling` (implementation not in the
header) — register-tile the band and mark the point loops for full
unrolling. -/
def applyRegisterTiling (Node : STree) (TileSizes : List Nat) (DefaultTileSize : Nat) : STree :=
  match tileNode Node "Register tiling" TileSizes DefaultTileSize with
  | .mark a (.band tb (.mark b2 pt)) => .mark a (.band tb (.mark b2 (.mark "Unroll" pt)))
  | r => r

/-- Modelled from the spec: `optimizeMatMulPattern` (implementation not in
the header) — builds the BLIS micro-kernel by register tiling plus
unrolling; assumes the node was accepted by `isMatrMultPattern`. -/
def optimizeMatMulPattern (Node : STree) (cfg : Config) : STree :=
  applyRegisterTiling Node cfg.registerTileSizes cfg.registerDefaultTileSize

/-- Modelled from the spec: `standardBandOpts` (implementation not in the
header) — tile the band when it is tileable, has more than one loop
dimension and tiling is not disabled; then prevectorize the point loop (or
the band itself when tiling was skipped) when vectorization is enabled. -/
def standardBandOpts (cfg : Config) (Node : STree) : STree :=
  match Node with
  | .band b c =>
    if isTileableBandNode (.band b c) then
      let t1 :=
        if !cfg.disableTiling && decide (1 < b.dims.length) then
          tileNode (.band b c) "Tiling" cfg.tileSizes cfg.defaultTileSize
        else .band b c
      if cfg.vectorize then prevectPointLoop cfg.vectorWidth t1 else t1
    else .band b c
  | t => t

/-- Modelled from the spec: `optimizeBand` (implementation not in the header)
— the per-band dispatch: the matmul path when the matcher succeeds, the
standard tiling/prevectorization path otherwise. -/
def optimizeBand (cfg : Config) (Node : STree) : STree :=
  if isMatrMultPattern Node then optimizeMatMulPattern Node cfg
  else standardBandOpts cfg Node

/-- Modelled from the spec: the driver's top-down pre-order walk
(implementation not in the header).  Mark nodes carry the provenance of
already-applied transformations, so the walk does not descend into marked
subtrees; a band on which some action fires is replaced by the action's
result and not revisited. -/
def walkOpt (cfg : Config) : STree → STree
  | .leaf => .leaf
  | .mark m t => .mark m t
  | .seq2 a b => .seq2 (walkOpt cfg a) (walkOpt cfg b)
  | .band b c =>
    if isMatrMultPattern (.band b c) || isTileableBandNode (.band b c) then
      optimizeBand cfg (.band b c)
    else .band b (walkOpt cfg c)

/-- Count of coincident dimensions in a dimension list. -/
def coincidentCount (l : List Dim) : Nat := l.countP (fun dm => dm.coincident)

/-- Count of non-unit (neither 0 nor 1) stride coefficients of a subscript. -/
def subscriptNonUnit (s : List Int) : Nat := s.countP (fun z => !(z == 0 || z == 1))

/-- Count of non-unit stride coefficients of one access. -/
def accessNonUnit (a : MemoryAccess) : Nat := (a.subscripts.map subscriptNonUnit).sum

/-- Count of non-unit stride coefficients of one statement. -/
def stmtNonUnit (st : ScopStmt) : Nat := (st.accesses.map accessNonUnit).sum

/-- Count of non-unit stride coefficients of one band payload. -/
def bandNonUnit (b : BandInfo) : Nat := (b.stmts.map stmtNonUnit).sum

/-- Locality coefficient of a whole tree: total non-unit strides. -/
def treeNonUnitStrides : STree → Nat
  | .leaf => 0
  | .band b c => bandNonUnit b + treeNonUnitStrides c
  | .seq2 a b => treeNonUnitStrides a + treeNonUnitStrides b
  | .mark _ t => treeNonUnitStrides t

/-- Parallelism coefficient of a whole tree: total coincident dimensions. -/
def treeCoincidentDims : STree → Nat
  | .leaf => 0
  | .band b c => coincidentCount b.dims + treeCoincidentDims c
  | .seq2 a b => treeCoincidentDims a + treeCoincidentDims b
  | .mark _ t => treeCoincidentDims t

/-- The whole-region schedule summary of a tree. -/
def treeSched (t : STree) : UnionMap := ⟨treeNonUnitStrides t, treeCoincidentDims t⟩

/-- `optimizeScheduleNode` of the header: the local entry point, without the
profitability gate.  `TTI` may be `none` (the header defaults it to null). -/
def optimizeScheduleNode (Node : STree) (TTI : Option TargetTransformInfo)
    (opts : Options) : STree :=
  walkOpt (mkConfig opts TTI) Node

/-- `optimizeSchedule` of the header: the whole-tree entry point; per the
spec it additionally runs the profitability estimate once against the input
schedule and discards an unprofitable rewrite. -/
def optimizeSchedule (Schedule : STree) (TTI : Option TargetTransformInfo)
    (opts : Options) : STree :=
  let Opt := walkOpt (mkConfig opts TTI) Schedule
  if isProfitableSchedule ⟨treeSched Schedule⟩ (treeSched Opt) then Opt else Schedule

/-- Does the tree contain a mark node with exactly this tag? -/
def hasMark (s : String) : STree → Bool
  | .leaf => false
  | .band _ c => hasMark s c
  | .seq2 a b => hasMark s a || hasMark s b
  | .mark m t => (m == s) || hasMark s t

/-- Read access of C in the canonical GEMM statement. -/
def accReadC : MemoryAccess := ⟨false, [[1, 0, 0], [0, 1, 0]]⟩

/-- Read access of A in the canonical GEMM statement. -/
def accReadA : MemoryAccess := ⟨false, [[1, 0, 0], [0, 0, 1]]⟩

/-- Read access of B in the canonical GEMM statement. -/
def accReadB : MemoryAccess := ⟨false, [[0, 0, 1], [0, 1, 0]]⟩

/-- Write access of C in the canonical GEMM statement. -/
def accWriteC : MemoryAccess := ⟨true, [[1, 0, 0], [0, 1, 0]]⟩

/-- The canonical GEMM statement (reads of C, A, B, then the write of C). -/
def gemmStmt : ScopStmt := ⟨[accReadC, accReadA, accReadB, accWriteC]⟩

/-- The three loop dimensions of the canonical GEMM nest. -/
def gemmDims : List Dim := [⟨1024, true, false⟩, ⟨1024, true, false⟩, ⟨1024, false, false⟩]

/-- The canonical GEMM band (innermost, one statement, three dimensions). -/
def gemmBand : STree := .band ⟨gemmDims, [gemmStmt], false⟩ .leaf

/-- A two-dimensional statement with unit strides. -/
def stmtC8 : ScopStmt := ⟨[⟨false, [[1, 0], [0, 1]]⟩, ⟨true, [[1, 0], [0, 1]]⟩]⟩

/-- A two-dimensional tileable band with extent 128 on both dimensions. -/
def bandC8 : STree := .band ⟨[⟨128, true, true⟩, ⟨128, true, true⟩], [stmtC8], false⟩ .leaf

/-- Options with the disable-tiling toggle set and vectorization enabled. -/
def optsC8 : Options := { disableTiling := true }

/-- Configuration with tiling disabled and vectorization enabled. -/
def cfgC8 : Config := mkConfig optsC8 none

/-- The default options (tiling enabled, vectorization enabled). -/
def defaultOpts : Options := {}

/-- The tree the per-band dispatch produces from `bandC8` with tiling
disabled: no tile split, an isolated outer vector-tile loop and an innermost
fixed loop of `prevectorWidth` iterations. -/
def c8Result : STree :=
  .mark "SIMD"
    (.band ⟨[⟨128, true, true⟩, ⟨numTiles 128 prevectorWidth, true, true⟩], [stmtC8], true⟩
      (.band ⟨[⟨prevectorWidth, false, true⟩], [stmtC8], false⟩ .leaf))

/-- The tree the driver produces from `bandC8` with default options and no
cost model: cache tiling at the default size 32, then prevectorization of
the point band at the constant default width. -/
def c10Result : STree :=
  .mark "Tiling - Tiles"
    (.band ⟨[⟨4, true, true⟩, ⟨4, true, true⟩], [stmtC8], false⟩
      (.mark "Tiling - Points"
        (.mark "SIMD"
          (.band ⟨[⟨32, true, true⟩, ⟨8, true, true⟩], [stmtC8], true⟩
            (.band ⟨[⟨prevectorWidth, false, true⟩], [stmtC8], false⟩ .leaf)))))

/-- A one-dimensional tileable band of extent 7 (witness input for tiling
coverage with a boundary tile). -/
def bandC1 : STree := .band ⟨[⟨7, true, false⟩], [], false⟩ .leaf

/-- Band payload used as the isolation witness input. -/
def bInfoC2 : BandInfo := ⟨[⟨10, true, false⟩], [], false⟩

theorem numTiles_mul_ge (N T : Nat) (hT : 0 < T) : N ≤ numTiles N T * T := by
  rcases Nat.eq_zero_or_pos N with h0 | hN
  · subst h0; exact Nat.zero_le _
  · have h1 : numTiles N T = (N - 1) / T + 1 := by
      unfold numTiles
      rw [show N + T - 1 = (N - 1) + T by omega, Nat.add_div_right _ hT]
    have h2 := Nat.div_add_mod (N - 1) T
    have h3 : (N - 1) % T < T := Nat.mod_lt _ hT
    rw [h1, Nat.add_mul, Nat.one_mul, Nat.mul_comm]
    omega

theorem range_min_step (N T k : Nat) :
    List.range (min (k * T) N) ++ (List.range (tileTrip N T k)).map (fun r => k * T + r)
      = List.range (min (k * T + T) N) := by
  rcases le_or_lt N (k * T) with hle | hlt
  · have h1 : min (k * T) N = N := by omega
    have h2 : tileTrip N T k = 0 := by unfold tileTrip; omega
    have h3 : min (k * T + T) N = N := by omega
    simp [h1, h2, h3]
  · have h1 : min (k * T) N = k * T := by omega
    have h2 : min (k * T + T) N = k * T + tileTrip N T k := by unfold tileTrip; omega
    rw [h1, h2, List.range_add]

theorem pairList_map_val (N T : Nat) :
    ∀ k, (pairList N T k).map (fun p => p.1 * T + p.2) = List.range (min (k * T) N)
  | 0 => by simp [pairList]
  | k + 1 => by
    rw [pairList, List.map_append, pairList_map_val N T k, List.map_map]
    have hc : ((fun p : Nat × Nat => p.1 * T + p.2) ∘ fun r => (k, r)) = fun r => k * T + r := rfl
    rw [hc, range_min_step N T k, Nat.succ_mul]

theorem tilePairs_cover (N T : Nat) (hT : 0 < T) :
    (tilePairs N T).map (fun p => p.1 * T + p.2) = List.range N := by
  rw [tilePairs, pairList_map_val N T]
  congr 1
  have := numTiles_mul_ge N T hT
  omega

theorem mem_pairList_lt (N T : Nat) :
    ∀ k p, p ∈ pairList N T k → p.1 < k ∧ p.2 < T ∧ p.1 * T + p.2 < N
  | 0, p, h => by simp [pairList] at h
  | k + 1, p, h => by
    rw [pairList, List.mem_append] at h
    rcases h with h | h
    · have := mem_pairList_lt N T k p h
      omega
    · simp only [List.mem_map, List.mem_range] at h
      obtain ⟨r, hr, rfl⟩ := h
      unfold tileTrip at hr
      exact ⟨Nat.lt_succ_self k, show r < T by omega, show k * T + r < N by omega⟩

theorem tileSizeFor_zero (TS : List Nat) (D : Nat) : tileSizeFor TS D 0 = TS.headD D := by
  cases TS <;> rfl

theorem tileSizeFor_succ (TS : List Nat) (D d : Nat) :
    tileSizeFor TS D (d + 1) = tileSizeFor TS.tail D d := by
  cases TS <;> rfl

theorem tileDims_getD (D : Nat) :
    ∀ (TS : List Nat) (l : List Dim) (d : Nat), d < l.length →
      (tileDims TS D l).getD d dimDflt
        = { l.getD d dimDflt with
            extent := numTiles (l.getD d dimDflt).extent (tileSizeFor TS D d) }
  | TS, [], d, h => by simp at h
  | TS, dm :: rest, 0, h => by
    simp [tileDims, tileSizeFor_zero]
  | TS, dm :: rest, d + 1, h => by
    have ih := tileDims_getD D TS.tail rest d (by simpa using Nat.lt_of_succ_lt_succ h)
    simpa [tileDims, tileSizeFor_succ] using ih

theorem pointDims_getD (D : Nat) :
    ∀ (TS : List Nat) (l : List Dim) (d : Nat), d < l.length →
      (pointDims TS D l).getD d dimDflt
        = { l.getD d dimDflt with extent := tileSizeFor TS D d }
  | TS, [], d, h => by simp at h
  | TS, dm :: rest, 0, h => by
    simp [pointDims, tileSizeFor_zero]
  | TS, dm :: rest, d + 1, h => by
    have ih := pointDims_getD D TS.tail rest d (by simpa using Nat.lt_of_succ_lt_succ h)
    simpa [pointDims, tileSizeFor_succ] using ih

/-- C1: for every tileable band and tile-size vector (`DefaultTileSize`
filling dimensions past the vector's length), `tileNode` produces the
tagged tile/point band pair, and for each dimension the (tile, point)
coordinate pairs stay within the produced bands' ranges and map, in
execution order, exactly onto the original dimension's iteration set:
no iteration lost, none duplicated, order preserved, boundary tiles
clipped at the original bound. -/
theorem tileNode_tile_point_coverage (b : BandInfo) (c : STree) (Identifier : String)
    (TileSizes : List Nat) (DefaultTileSize : Nat) (d : Nat)
    (htile : isTileableBandNode (.band b c) = true)
    (hd : d < b.dims.length)
    (hT : 0 < tileSizeFor TileSizes DefaultTileSize d) :
    tileNode (.band b c) Identifier TileSizes DefaultTileSize
        = .mark (Identifier ++ " - Tiles")
            (.band (tileBandInfo TileSizes DefaultTileSize b)
              (.mark (Identifier ++ " - Points")
                (.band (pointBandInfo TileSizes DefaultTileSize b) c)))
      ∧ ((tileDims TileSizes DefaultTileSize b.dims).getD d dimDflt).extent
          = numTiles ((b.dims.getD d dimDflt).extent) (tileSizeFor TileSizes DefaultTileSize d)
      ∧ ((pointDims TileSizes DefaultTileSize b.dims).getD d dimDflt).extent
          = tileSizeFor TileSizes DefaultTileSize d
      ∧ (∀ p ∈ tilePairs ((b.dims.getD d dimDflt).extent) (tileSizeFor TileSizes DefaultTileSize d),
            p.1 < numTiles ((b.dims.getD d dimDflt).extent) (tileSizeFor TileSizes DefaultTileSize d)
              ∧ p.2 < tileSizeFor TileSizes DefaultTileSize d)
      ∧ (tilePairs ((b.dims.getD d dimDflt).extent) (tileSizeFor TileSizes DefaultTileSize d)).map
            (fun p => p.1 * tileSizeFor TileSizes DefaultTileSize d + p.2)
          = List.range ((b.dims.getD d dimDflt).extent) := by
  refine ⟨rfl, ?_, ?_, ?_, ?_⟩
  · rw [tileDims_getD DefaultTileSize TileSizes b.dims d hd]
  · rw [pointDims_getD DefaultTileSize TileSizes b.dims d hd]
  · intro p hp
    have := mem_pairList_lt _ _ _ p hp
    exact ⟨this.1, this.2.1⟩
  · exact tilePairs_cover _ _ hT

theorem tileNode_tile_point_coverage_w :
    (tilePairs 7 3).map (fun p => p.1 * 3 + p.2) = List.range 7 := by
  have h := tileNode_tile_point_coverage ⟨[⟨7, true, false⟩], [], false⟩ .leaf "Tiling"
    [3] 32 0 (by decide) (by decide) (by decide)
  exact h.2.2.2.2

theorem mem_tilePoints (N W q i : Nat) :
    i ∈ tilePoints N W q ↔ q * W ≤ i ∧ i < q * W + W ∧ i < N := by
  simp only [tilePoints, List.mem_map, List.mem_range]
  unfold tileTrip
  constructor
  · rintro ⟨r, hr, rfl⟩
    omega
  · rintro ⟨h1, h2, h3⟩
    exact ⟨i - q * W, by omega, by omega⟩

theorem mem_fullTileIdxs (N W q : Nat) :
    q ∈ fullTileIdxs N W ↔ q < numTiles N W ∧ q * W + W ≤ N := by
  simp [fullTileIdxs, List.mem_filter, List.mem_range]

theorem mem_remTileIdxs (N W q : Nat) :
    q ∈ remTileIdxs N W ↔ q < numTiles N W ∧ ¬ (q * W + W ≤ N) := by
  simp [remTileIdxs, List.mem_filter, List.mem_range]

theorem div_mul_bounds (i W : Nat) (hW : 0 < W) :
    (i / W) * W ≤ i ∧ i < (i / W) * W + W := by
  have h := Nat.div_add_mod i W
  have h2 : i % W < W := Nat.mod_lt _ hW
  rw [Nat.mul_comm]
  omega

/-- C2: `isolateFullPartialTiles` sets the isolate option on the tile band,
and the isolation it requests is semantically exact: every tile of the full
region has exactly `W` point iterations, the full and remainder (partial)
regions are disjoint, their union covers exactly the pre-isolation
iteration set, and no iteration belongs to two distinct tiles — also when
the extent is not a multiple of `W`. -/
theorem isolateFullPartialTiles_partition (b : BandInfo) (c : STree) (N W : Nat)
    (hW : 0 < W) :
    isolateFullPartialTiles (.band b c) W = .band { b with isolateOpt := true } c
      ∧ (∀ q ∈ fullTileIdxs N W, (tilePoints N W q).length = W)
      ∧ (∀ q, ¬ (q ∈ fullTileIdxs N W ∧ q ∈ remTileIdxs N W))
      ∧ (∀ i, i ∈ List.range N ↔
            (∃ q ∈ fullTileIdxs N W, i ∈ tilePoints N W q)
              ∨ ∃ q ∈ remTileIdxs N W, i ∈ tilePoints N W q)
      ∧ (∀ q1 q2 i, q1 ≠ q2 → i ∈ tilePoints N W q1 → ¬ i ∈ tilePoints N W q2) := by
  refine ⟨rfl, ?_, ?_, ?_, ?_⟩
  · intro q hq
    rw [mem_fullTileIdxs] at hq
    simp only [tilePoints, List.length_map, List.length_range, tileTrip]
    omega
  · rintro q ⟨h1, h2⟩
    rw [mem_fullTileIdxs] at h1
    rw [mem_remTileIdxs] at h2
    exact h2.2 h1.2
  · intro i
    simp only [List.mem_range]
    constructor
    · intro hi
      have hb := div_mul_bounds i W hW
      have hqlt : i / W < numTiles N W := by
        rw [Nat.div_lt_iff_lt_mul hW]
        exact lt_of_lt_of_le hi (numTiles_mul_ge N W hW)
      by_cases hfull : (i / W) * W + W ≤ N
      · exact Or.inl ⟨i / W, (mem_fullTileIdxs N W _).2 ⟨hqlt, hfull⟩,
          (mem_tilePoints N W _ i).2 ⟨hb.1, hb.2, hi⟩⟩
      · exact Or.inr ⟨i / W, (mem_remTileIdxs N W _).2 ⟨hqlt, hfull⟩,
          (mem_tilePoints N W _ i).2 ⟨hb.1, hb.2, hi⟩⟩
    · rintro (⟨q, hq, hp⟩ | ⟨q, hq, hp⟩) <;> exact ((mem_tilePoints N W q i).1 hp).2.2
  · intro q1 q2 i hne h1 h2
    rw [mem_tilePoints] at h1 h2
    rcases Nat.lt_or_ge q1 q2 with h | h
    · have h3 := Nat.mul_le_mul_right W h
      rw [Nat.succ_mul] at h3
      omega
    · rcases Nat.lt_or_ge q2 q1 with hlt | hle
      · have h3 := Nat.mul_le_mul_right W hlt
        rw [Nat.succ_mul] at h3
        omega
      · exact hne (Nat.le_antisymm hle h)

theorem isolateFullPartialTiles_partition_w :
    isolateFullPartialTiles (.band bInfoC2 .leaf) 4
      = .band { bInfoC2 with isolateOpt := true } .leaf :=
  (isolateFullPartialTiles_partition bInfoC2 .leaf 10 4 (by decide)).1

theorem numTiles_of_dvd (N W : Nat) (hW : 0 < W) (h : W ∣ N) :
    numTiles N W = N / W ∧ ∀ q, q < N / W → tileTrip N W q = W := by
  obtain ⟨m, rfl⟩ := h
  constructor
  · unfold numTiles
    rw [show W * m + W - 1 = W * m + (W - 1) by omega, Nat.mul_add_div hW,
      Nat.div_eq_of_lt (show W - 1 < W by omega), Nat.mul_div_cancel_left m hW]
    omega
  · intro q hq
    rw [Nat.mul_div_cancel_left m hW] at hq
    have h2 := Nat.mul_le_mul_right W hq
    rw [Nat.succ_mul] at h2
    unfold tileTrip
    rw [Nat.mul_comm W m]
    omega

/-- C5: `prevectSchedBand` tiles dimension `d` alone at the vector width and
sinks the resulting point loop innermost (it becomes the band directly above
the original child), and whenever the original extent is a multiple of `W`
every produced point loop instance has exactly `W` iterations — a constant
trip count. -/
theorem prevectSchedBand_vector_width (b : BandInfo) (c : STree) (d W : Nat)
    (hd : d < b.dims.length) (hW : 0 < W) :
    prevectSchedBand (.band b c) d W
        = .mark "SIMD"
            (.band (prevectTileBandInfo b d W)
              (.band ⟨[⟨W, false, true⟩], b.stmts, false⟩ c))
      ∧ (W ∣ (b.dims.getD d dimDflt).extent →
          numTiles ((b.dims.getD d dimDflt).extent) W = (b.dims.getD d dimDflt).extent / W
            ∧ ∀ q, q < (b.dims.getD d dimDflt).extent / W →
                tileTrip ((b.dims.getD d dimDflt).extent) W q = W) :=
  ⟨rfl, fun hdvd => numTiles_of_dvd _ W hW hdvd⟩

theorem prevectSchedBand_vector_width_w :
    numTiles 128 4 = 128 / 4 :=
  ((prevectSchedBand_vector_width ⟨[⟨128, true, true⟩, ⟨128, true, true⟩], [stmtC8], false⟩
    .leaf 1 4 (by decide) (by decide)).2 (by decide)).1

/-- C6: the profitability estimate accepts a candidate identical to the
region's currently accepted schedule (a no-op rewrite is always acceptable)
and rejects a candidate with strictly worse locality coefficients and no
compensating parallelism gain. -/
theorem isProfitableSchedule_monotone (S : Scop) (NewSchedule : UnionMap) :
    isProfitableSchedule S S.schedule = true
      ∧ (S.schedule.nonUnitStrides < NewSchedule.nonUnitStrides →
          NewSchedule.coincidentDims ≤ S.schedule.coincidentDims →
          isProfitableSchedule S NewSchedule = false) := by
  constructor
  · simp [isProfitableSchedule]
  · intro h1 h2
    have h3 : ¬ NewSchedule.nonUnitStrides ≤ S.schedule.nonUnitStrides := by omega
    simp [isProfitableSchedule, h3]

theorem isProfitableSchedule_monotone_w :
    isProfitableSchedule ⟨⟨2, 1⟩⟩ ⟨3, 1⟩ = false :=
  (isProfitableSchedule_monotone ⟨⟨2, 1⟩⟩ ⟨3, 1⟩).2 (by decide) (by decide)

/-- C3: the access-pattern matcher is a conservative filter — a candidate is
produced only when all the header's conditions hold (one statement, three
loop dimensions, all accesses but the last are reads with stride-0/1
subscripts, the last access is a write, and no write subscript references
the reduction dimension), and no candidate is produced when any condition
fails. -/
theorem isMatrMultPattern_conservative (t : STree) :
    ((matchMatMul t).isSome = true → MatMulConds t)
      ∧ (¬ MatMulConds t → matchMatMul t = none) := by
  have sound : (matchMatMul t).isSome = true → MatMulConds t := by
    intro h
    cases t with
    | leaf => simp [matchMatMul] at h
    | seq2 a b => simp [matchMatMul] at h
    | mark m u => simp [matchMatMul] at h
    | band b c =>
      cases hcb : containsBand c with
      | true => simp [matchMatMul, hcb] at h
      | false =>
        cases hst : b.stmts with
        | nil => simp [matchMatMul, hcb, hst] at h
        | cons st tl =>
          cases tl with
          | cons st2 tl2 => simp [matchMatMul, hcb, hst] at h
          | nil =>
            by_cases hd3 : b.dims.length = 3
            · cases hw : st.accesses.getLast? with
              | none => simp [matchMatMul, hcb, hst, hd3, hw] at h
              | some w =>
                simp [matchMatMul, hcb, hst, hd3, hw] at h
                obtain ⟨⟨hwrite, hreads⟩, hwsub⟩ := h
                refine ⟨b, c, st, w, rfl, hst, hd3, hw, hwrite, ?_, ?_⟩
                · intro a ha
                  obtain ⟨h1, h2⟩ := hreads a ha
                  refine ⟨h1, ?_⟩
                  intro s hs z hz
                  have h3 := h2 s hs
                  rw [strideOk01] at h3
                  have h4 := List.all_eq_true.mp h3 z hz
                  simpa using h4
                · intro s hs
                  have h2 := hwsub s hs
                  simpa [List.getD_eq_getElem?_getD] using h2
            · simp [matchMatMul, hcb, hst, hd3] at h
  refine ⟨sound, fun hnc => ?_⟩
  cases he : matchMatMul t with
  | none => rfl
  | some cand => exact absurd (sound (by simp [he])) hnc

theorem isMatrMultPattern_conservative_w : MatMulConds gemmBand :=
  (isMatrMultPattern_conservative gemmBand).1 (by decide)

theorem hasEligible_eq_any (t : STree) :
    hasEligible t = (subtreesList t).any eligibleBand := by
  induction t with
  | leaf => rfl
  | band b c ih => simp [hasEligible, subtreesList, eligibleBand, ih]
  | seq2 a b iha ihb =>
    simp [hasEligible, subtreesList, eligibleBand, iha, ihb, List.any_append]
  | mark m u ih => simp [hasEligible, subtreesList, eligibleBand, ih]

/-- C9: `isTileableBandNode` is a pure predicate that holds exactly of band
nodes that have at least one permutable dimension and are innermost in the
sense that no node of the subtree below them is an eligible band. -/
theorem isTileableBandNode_charact (t : STree) :
    isTileableBandNode t = true ↔
      ∃ b c, t = .band b c ∧ (∃ dm ∈ b.dims, dm.permutable = true)
        ∧ ∀ u ∈ subtreesList c, eligibleBand u = false := by
  cases t with
  | leaf => simp [isTileableBandNode]
  | seq2 a b => simp [isTileableBandNode]
  | mark m u => simp [isTileableBandNode]
  | band b c =>
    rw [isTileableBandNode]
    rw [Bool.and_eq_true, Bool.not_eq_true', hasEligible_eq_any]
    constructor
    · rintro ⟨h1, h2⟩
      refine ⟨b, c, rfl, ?_, ?_⟩
      · simpa using List.any_eq_true.mp h1
      · intro u hu
        rw [List.any_eq_false] at h2
        simpa using h2 u hu
    · rintro ⟨b2, c2, heq, h1, h2⟩
      injection heq with hb hc
      subst hb
      subst hc
      constructor
      · exact List.any_eq_true.mpr (by simpa using h1)
      · rw [List.any_eq_false]
        intro u hu
        simp [h2 u hu]

theorem any_perm_tileDims (D : Nat) :
    ∀ (TS : List Nat) (l : List Dim),
      (tileDims TS D l).any (fun dm => dm.permutable) = l.any (fun dm => dm.permutable)
  | TS, [] => rfl
  | TS, dm :: rest => by
    simp [tileDims, any_perm_tileDims D TS.tail rest]

theorem any_perm_pointDims (D : Nat) :
    ∀ (TS : List Nat) (l : List Dim),
      (pointDims TS D l).any (fun dm => dm.permutable) = l.any (fun dm => dm.permutable)
  | TS, [] => rfl
  | TS, dm :: rest => by
    simp [pointDims, any_perm_pointDims D TS.tail rest]

theorem any_perm_set (l : List Dim) (d : Nat) (v : Dim)
    (hv : v.permutable = (l.getD d dimDflt).permutable) :
    (l.set d v).any (fun dm => dm.permutable) = l.any (fun dm => dm.permutable) := by
  induction l generalizing d with
  | nil => rfl
  | cons x xs ih =>
    cases d with
    | zero =>
      simp only [List.getD_cons_zero] at hv
      show (v.permutable || xs.any fun dm => dm.permutable)
        = (x.permutable || xs.any fun dm => dm.permutable)
      rw [hv]
    | succ d2 =>
      simp only [List.getD_cons_succ] at hv
      show (x.permutable || (xs.set d2 v).any fun dm => dm.permutable)
        = (x.permutable || xs.any fun dm => dm.permutable)
      rw [ih d2 hv]

theorem any_perm_prevectTile (b : BandInfo) (d W : Nat) :
    (prevectTileBandInfo b d W).dims.any (fun dm => dm.permutable)
      = b.dims.any (fun dm => dm.permutable) :=
  any_perm_set b.dims d _ rfl

theorem prevectVec_band_eq (W : Nat) (b : BandInfo) (c : STree) :
    prevectVec W (.band b c)
      = .mark "SIMD"
          (.band { prevectTileBandInfo b (b.dims.length - 1) W with isolateOpt := true }
            (.band ⟨[⟨W, false, true⟩], b.stmts, false⟩ c)) := rfl

theorem hasEligible_prevectVec_band (W : Nat) (b : BandInfo) (c : STree) :
    hasEligible (prevectVec W (.band b c)) = hasEligible (.band b c) := by
  rw [prevectVec_band_eq]
  show ((prevectTileBandInfo b (b.dims.length - 1) W).dims.any (fun dm => dm.permutable)
      || (([⟨W, false, true⟩] : List Dim).any (fun dm => dm.permutable) || hasEligible c))
    = ((b.dims.any fun dm => dm.permutable) || hasEligible c)
  rw [any_perm_prevectTile]
  simp [hasEligible]

theorem hasMark_prevectVec_band (s : String) (W : Nat) (b : BandInfo) (c : STree) :
    hasMark s (prevectVec W (.band b c)) = (("SIMD" == s) || hasMark s c) := by
  rw [prevectVec_band_eq]
  simp [hasMark]

theorem hasMark_applyRegisterTiling (s : String) (b : BandInfo) (c : STree)
    (TS : List Nat) (D : Nat) :
    hasMark s (applyRegisterTiling (.band b c) TS D)
      = ((("Register tiling" ++ " - Tiles") == s)
          || (("Register tiling" ++ " - Points") == s)
          || ("Unroll" == s)
          || hasMark s c) := by
  simp [applyRegisterTiling, tileNode, hasMark, Bool.or_assoc]

theorem hasEligible_applyRegisterTiling (b : BandInfo) (c : STree)
    (TS : List Nat) (D : Nat) :
    hasEligible (applyRegisterTiling (.band b c) TS D) = hasEligible (.band b c) := by
  simp only [applyRegisterTiling, tileNode]
  simp [hasEligible, tileBandInfo, pointBandInfo, any_perm_tileDims, any_perm_pointDims]

theorem standardBandOpts_cases (cfg : Config) (b : BandInfo) (c : STree) :
    standardBandOpts cfg (.band b c) = .band b c
      ∨ (isTileableBandNode (.band b c) = true
          ∧ (!cfg.disableTiling && decide (1 < b.dims.length)) = true
          ∧ (cfg.vectorize = true ∧ standardBandOpts cfg (.band b c)
                = .mark ("Tiling" ++ " - Tiles")
                    (.band (tileBandInfo cfg.tileSizes cfg.defaultTileSize b)
                      (.mark ("Tiling" ++ " - Points")
                        (prevectVec cfg.vectorWidth
                          (.band (pointBandInfo cfg.tileSizes cfg.defaultTileSize b) c))))
              ∨ cfg.vectorize = false ∧ standardBandOpts cfg (.band b c)
                = tileNode (.band b c) "Tiling" cfg.tileSizes cfg.defaultTileSize))
      ∨ (isTileableBandNode (.band b c) = true
          ∧ (!cfg.disableTiling && decide (1 < b.dims.length)) = false
          ∧ cfg.vectorize = true
          ∧ standardBandOpts cfg (.band b c) = prevectVec cfg.vectorWidth (.band b c)) := by
  by_cases ht : isTileableBandNode (.band b c) = true
  · by_cases hdt : (!cfg.disableTiling && decide (1 < b.dims.length)) = true
    · by_cases hv : cfg.vectorize = true
      · refine Or.inr (Or.inl ⟨ht, hdt, Or.inl ⟨hv, ?_⟩⟩)
        simp only [standardBandOpts, ht, hdt, hv, if_true]
        rfl
      · refine Or.inr (Or.inl ⟨ht, hdt, Or.inr ⟨Bool.eq_false_iff.mpr hv, ?_⟩⟩)
        simp only [standardBandOpts, ht, hdt, if_true]
        rw [if_neg hv]
    · by_cases hv : cfg.vectorize = true
      · refine Or.inr (Or.inr ⟨ht, Bool.eq_false_iff.mpr hdt, hv, ?_⟩)
        simp only [standardBandOpts, ht, if_true]
        rw [if_neg hdt, if_pos hv]
        rfl
      · refine Or.inl ?_
        simp only [standardBandOpts, ht, if_true]
        rw [if_neg hdt, if_neg hv]
  · refine Or.inl ?_
    simp only [standardBandOpts]
    rw [if_neg ht]

theorem hasEligible_tileNode_band (b : BandInfo) (c : STree) (Id : String)
    (TS : List Nat) (D : Nat) :
    hasEligible (tileNode (.band b c) Id TS D) = hasEligible (.band b c) := by
  simp only [tileNode]
  simp [hasEligible, tileBandInfo, pointBandInfo, any_perm_tileDims, any_perm_pointDims]

theorem hasEligible_tiled_prevect (cfg : Config) (b : BandInfo) (c : STree) :
    hasEligible (.mark ("Tiling" ++ " - Tiles")
        (.band (tileBandInfo cfg.tileSizes cfg.defaultTileSize b)
          (.mark ("Tiling" ++ " - Points")
            (prevectVec cfg.vectorWidth
              (.band (pointBandInfo cfg.tileSizes cfg.defaultTileSize b) c)))))
      = hasEligible (.band b c) := by
  have h1 : hasEligible (.mark ("Tiling" ++ " - Tiles")
        (.band (tileBandInfo cfg.tileSizes cfg.defaultTileSize b)
          (.mark ("Tiling" ++ " - Points")
            (prevectVec cfg.vectorWidth
              (.band (pointBandInfo cfg.tileSizes cfg.defaultTileSize b) c)))))
      = ((tileBandInfo cfg.tileSizes cfg.defaultTileSize b).dims.any (fun dm => dm.permutable)
          || hasEligible (prevectVec cfg.vectorWidth
              (.band (pointBandInfo cfg.tileSizes cfg.defaultTileSize b) c))) := rfl
  rw [h1, hasEligible_prevectVec_band]
  have h2 : hasEligible (.band (pointBandInfo cfg.tileSizes cfg.defaultTileSize b) c)
      = ((pointBandInfo cfg.tileSizes cfg.defaultTileSize b).dims.any (fun dm => dm.permutable)
          || hasEligible c) := rfl
  rw [h2]
  rw [show (tileBandInfo cfg.tileSizes cfg.defaultTileSize b).dims
        = tileDims cfg.tileSizes cfg.defaultTileSize b.dims from rfl]
  rw [show (pointBandInfo cfg.tileSizes cfg.defaultTileSize b).dims
        = pointDims cfg.tileSizes cfg.defaultTileSize b.dims from rfl]
  rw [any_perm_tileDims, any_perm_pointDims]
  show ((b.dims.any fun dm => dm.permutable)
      || ((b.dims.any fun dm => dm.permutable) || hasEligible c))
    = ((b.dims.any fun dm => dm.permutable) || hasEligible c)
  cases hp : (b.dims.any fun dm => dm.permutable) <;> simp [hp]

theorem optimizeBand_band_facts (cfg : Config) (b : BandInfo) (c : STree) :
    containsBand (optimizeBand cfg (.band b c)) = true
      ∧ hasEligible (optimizeBand cfg (.band b c)) = hasEligible (.band b c)
      ∧ ((∃ s u, optimizeBand cfg (.band b c) = .mark s u)
          ∨ optimizeBand cfg (.band b c) = .band b c) := by
  by_cases hm : isMatrMultPattern (.band b c) = true
  · have he : optimizeBand cfg (.band b c)
        = applyRegisterTiling (.band b c) cfg.registerTileSizes cfg.registerDefaultTileSize := by
      rw [optimizeBand, if_pos hm]; rfl
    rw [he]
    exact ⟨rfl, hasEligible_applyRegisterTiling b c _ _, Or.inl ⟨_, _, rfl⟩⟩
  · have he : optimizeBand cfg (.band b c) = standardBandOpts cfg (.band b c) := by
      rw [optimizeBand, if_neg hm]
    rw [he]
    rcases standardBandOpts_cases cfg b c with h1 | ⟨ht, hdt, h2 | h2⟩ | ⟨ht, hdt, hv, h4⟩
    · rw [h1]
      exact ⟨rfl, rfl, Or.inr rfl⟩
    · obtain ⟨hv, heq⟩ := h2
      rw [heq]
      exact ⟨rfl, hasEligible_tiled_prevect cfg b c, Or.inl ⟨_, _, rfl⟩⟩
    · obtain ⟨hv, heq⟩ := h2
      rw [heq]
      exact ⟨rfl, hasEligible_tileNode_band b c _ _ _, Or.inl ⟨_, _, rfl⟩⟩
    · rw [h4]
      refine ⟨?_, hasEligible_prevectVec_band _ b c, Or.inl ⟨_, _, prevectVec_band_eq _ b c⟩⟩
      rw [prevectVec_band_eq]
      rfl

theorem walkOpt_no_band (cfg : Config) (t : STree) (h : containsBand t = false) :
    walkOpt cfg t = t := by
  induction t with
  | leaf => rfl
  | band b c ih => simp [containsBand] at h
  | seq2 a b iha ihb =>
    simp only [containsBand, Bool.or_eq_false_iff] at h
    simp only [walkOpt]
    rw [iha h.1, ihb h.2]
  | mark m u ih => rfl

theorem containsBand_walkOpt (cfg : Config) (t : STree) :
    containsBand (walkOpt cfg t) = containsBand t := by
  induction t with
  | leaf => rfl
  | mark m u ih => rfl
  | seq2 a b iha ihb => simp [walkOpt, containsBand, iha, ihb]
  | band b c ih =>
    simp only [walkOpt]
    by_cases hf : (isMatrMultPattern (.band b c) || isTileableBandNode (.band b c)) = true
    · rw [if_pos hf, (optimizeBand_band_facts cfg b c).1]
      rfl
    · rw [if_neg hf]
      rfl

theorem hasEligible_walkOpt (cfg : Config) (t : STree) :
    hasEligible (walkOpt cfg t) = hasEligible t := by
  induction t with
  | leaf => rfl
  | mark m u ih => rfl
  | seq2 a b iha ihb => simp [walkOpt, hasEligible, iha, ihb]
  | band b c ih =>
    simp only [walkOpt]
    by_cases hf : (isMatrMultPattern (.band b c) || isTileableBandNode (.band b c)) = true
    · rw [if_pos hf]
      exact (optimizeBand_band_facts cfg b c).2.1
    · rw [if_neg hf]
      simp only [hasEligible, ih]

theorem matmul_walk (cfg : Config) (b : BandInfo) (c : STree) :
    isMatrMultPattern (.band b (walkOpt cfg c)) = isMatrMultPattern (.band b c) := by
  cases hcb : containsBand c with
  | false => rw [walkOpt_no_band cfg c hcb]
  | true =>
    have h2 : containsBand (walkOpt cfg c) = true := by rw [containsBand_walkOpt, hcb]
    simp [isMatrMultPattern, matchMatMul, hcb, h2]

theorem tileable_walk (cfg : Config) (b : BandInfo) (c : STree) :
    isTileableBandNode (.band b (walkOpt cfg c)) = isTileableBandNode (.band b c) := by
  simp only [isTileableBandNode, hasEligible_walkOpt]

theorem walkOpt_idem (cfg : Config) (t : STree) :
    walkOpt cfg (walkOpt cfg t) = walkOpt cfg t := by
  induction t with
  | leaf => rfl
  | mark m u ih => rfl
  | seq2 a b iha ihb => simp [walkOpt, iha, ihb]
  | band b c ih =>
    by_cases hf : (isMatrMultPattern (.band b c) || isTileableBandNode (.band b c)) = true
    · have h1 : walkOpt cfg (.band b c) = optimizeBand cfg (.band b c) := by
        simp only [walkOpt]
        rw [if_pos hf]
      rw [h1]
      rcases (optimizeBand_band_facts cfg b c).2.2 with ⟨s, u, heq⟩ | heq
      · rw [heq]
        rfl
      · rw [heq]
        exact h1.trans heq
    · have h1 : walkOpt cfg (.band b c) = .band b (walkOpt cfg c) := by
        simp only [walkOpt]
        rw [if_neg hf]
      rw [h1]
      have hf2 : ¬ (isMatrMultPattern (.band b (walkOpt cfg c))
          || isTileableBandNode (.band b (walkOpt cfg c))) = true := by
        rw [matmul_walk, tileable_walk]
        exact hf
      have h2 : walkOpt cfg (.band b (walkOpt cfg c))
          = .band b (walkOpt cfg (walkOpt cfg c)) := by
        simp only [walkOpt]
        rw [if_neg hf2]
      rw [h2, ih]

theorem isProfitableSchedule_refl (u : UnionMap) : isProfitableSchedule ⟨u⟩ u = true := by
  simp [isProfitableSchedule]

/-- C7: the pipeline is idempotent — running `optimizeSchedule` on its own
output changes nothing, and likewise the per-band walk reaches a fixed point
after a single pass. -/
theorem optimizeSchedule_idem :
    (∀ (t : STree) (TTI : Option TargetTransformInfo) (opts : Options),
        optimizeSchedule (optimizeSchedule t TTI opts) TTI opts
          = optimizeSchedule t TTI opts)
      ∧ ∀ (cfg : Config) (t : STree), walkOpt cfg (walkOpt cfg t) = walkOpt cfg t := by
  refine ⟨?_, walkOpt_idem⟩
  intro t TTI opts
  by_cases hg : isProfitableSchedule ⟨treeSched t⟩
      (treeSched (walkOpt (mkConfig opts TTI) t)) = true
  · have h1 : optimizeSchedule t TTI opts = walkOpt (mkConfig opts TTI) t := by
      simp only [optimizeSchedule]
      rw [if_pos hg]
    rw [h1]
    simp only [optimizeSchedule]
    rw [walkOpt_idem, if_pos (isProfitableSchedule_refl _)]
  · have h1 : optimizeSchedule t TTI opts = t := by
      simp only [optimizeSchedule]
      rw [if_neg hg]
    rw [h1]
    exact h1

/-- C4: the per-band dispatch is mutually exclusive — whenever the matmul
matcher succeeds on a node, the matmul kernel path is taken, and neither the
generic cache tiling nor the prevectorization tagging is applied to that
band. -/
theorem optimizeBand_matmul_dispatch (cfg : Config) (t : STree)
    (h : isMatrMultPattern t = true) :
    optimizeBand cfg t = optimizeMatMulPattern t cfg
      ∧ (hasMark "Tiling - Tiles" t = false →
          hasMark "Tiling - Tiles" (optimizeBand cfg t) = false)
      ∧ (hasMark "SIMD" t = false → hasMark "SIMD" (optimizeBand cfg t) = false) := by
  have h1 : optimizeBand cfg t = optimizeMatMulPattern t cfg := by
    rw [optimizeBand, if_pos h]
  cases t with
  | leaf => simp [isMatrMultPattern, matchMatMul] at h
  | seq2 a b => simp [isMatrMultPattern, matchMatMul] at h
  | mark m u => simp [isMatrMultPattern, matchMatMul] at h
  | band b c =>
    refine ⟨h1, ?_, ?_⟩
    · intro hmk
      rw [h1]
      show hasMark "Tiling - Tiles"
        (applyRegisterTiling (.band b c) cfg.registerTileSizes cfg.registerDefaultTileSize)
        = false
      rw [hasMark_applyRegisterTiling]
      have e1 : (("Register tiling" ++ " - Tiles") == "Tiling - Tiles") = false := by decide
      have e2 : (("Register tiling" ++ " - Points") == "Tiling - Tiles") = false := by decide
      have e3 : (("Unroll" : String) == "Tiling - Tiles") = false := by decide
      have e4 : hasMark "Tiling - Tiles" c = false := hmk
      rw [e1, e2, e3, e4]
      rfl
    · intro hmk
      rw [h1]
      show hasMark "SIMD"
        (applyRegisterTiling (.band b c) cfg.registerTileSizes cfg.registerDefaultTileSize)
        = false
      rw [hasMark_applyRegisterTiling]
      have e1 : (("Register tiling" ++ " - Tiles") == "SIMD") = false := by decide
      have e2 : (("Register tiling" ++ " - Points") == "SIMD") = false := by decide
      have e3 : (("Unroll" : String) == "SIMD") = false := by decide
      have e4 : hasMark "SIMD" c = false := hmk
      rw [e1, e2, e3, e4]
      rfl

theorem optimizeBand_matmul_dispatch_w :
    optimizeBand cfgC8 gemmBand = optimizeMatMulPattern gemmBand cfgC8 :=
  (optimizeBand_matmul_dispatch cfgC8 gemmBand (by decide)).1

theorem hasMark_TT_optimizeBand (cfg : Config) (b : BandInfo) (c : STree)
    (hnot : ¬ (isTileableBandNode (.band b c) = true
        ∧ (!cfg.disableTiling && decide (1 < b.dims.length)) = true)) :
    hasMark "Tiling - Tiles" (optimizeBand cfg (.band b c))
      = hasMark "Tiling - Tiles" (.band b c) := by
  by_cases hm : isMatrMultPattern (.band b c) = true
  · rw [optimizeBand, if_pos hm]
    show hasMark "Tiling - Tiles"
        (applyRegisterTiling (.band b c) cfg.registerTileSizes cfg.registerDefaultTileSize)
      = hasMark "Tiling - Tiles" (.band b c)
    rw [hasMark_applyRegisterTiling]
    have e1 : (("Register tiling" ++ " - Tiles") == "Tiling - Tiles") = false := by decide
    have e2 : (("Register tiling" ++ " - Points") == "Tiling - Tiles") = false := by decide
    have e3 : (("Unroll" : String) == "Tiling - Tiles") = false := by decide
    rw [e1, e2, e3]
    rfl
  · rw [optimizeBand, if_neg hm]
    rcases standardBandOpts_cases cfg b c with h1 | ⟨ht, hdt, h2⟩ | ⟨ht, hdt, hv, h4⟩
    · rw [h1]
    · exact absurd ⟨ht, hdt⟩ hnot
    · rw [h4, hasMark_prevectVec_band]
      have e : (("SIMD" : String) == "Tiling - Tiles") = false := by decide
      rw [e]
      rfl

/-- C8: the driver applies cache tiling to a band only when the band is
tileable and has more than one loop dimension, and skips tiling entirely
when the disable-tiling toggle is set; in the disable-toggle scenario (two
dimensions of extent 128, vectorization at width 4), the result has no outer
tile split and an innermost fixed vector loop of exactly 4 iterations, every
vector tile being full. -/
theorem optimizeBand_tiling_gate :
    (∀ (cfg : Config) (t : STree), cfg.disableTiling = true →
        hasMark "Tiling - Tiles" (optimizeBand cfg t) = hasMark "Tiling - Tiles" t)
      ∧ (∀ (cfg : Config) (b : BandInfo) (c : STree),
          ¬ (isTileableBandNode (.band b c) = true ∧ 1 < b.dims.length) →
          hasMark "Tiling - Tiles" (optimizeBand cfg (.band b c))
            = hasMark "Tiling - Tiles" (.band b c))
      ∧ optimizeBand cfgC8 bandC8 = c8Result
      ∧ hasMark "Tiling - Tiles" c8Result = false
      ∧ hasMark "SIMD" c8Result = true
      ∧ ∀ q, q < numTiles 128 4 → tileTrip 128 4 q = 4 := by
  refine ⟨?_, ?_, by decide, by decide, by decide, ?_⟩
  · intro cfg t hdis
    cases t with
    | leaf => rfl
    | seq2 a b => rfl
    | mark m u => rfl
    | band b c =>
      apply hasMark_TT_optimizeBand
      rintro ⟨ht, hdt⟩
      rw [hdis] at hdt
      simp at hdt
  · intro cfg b c hn
    apply hasMark_TT_optimizeBand
    rintro ⟨ht, hdt⟩
    rw [Bool.and_eq_true] at hdt
    exact hn ⟨ht, of_decide_eq_true hdt.2⟩
  · obtain ⟨he, htr⟩ := numTiles_of_dvd 128 4 (by norm_num) (by norm_num)
    rw [he]
    exact htr

theorem optimizeBand_tiling_gate_w :
    hasMark "Tiling - Tiles" (optimizeBand cfgC8 bandC8)
      = hasMark "Tiling - Tiles" bandC8 :=
  optimizeBand_tiling_gate.1 cfgC8 bandC8 (by decide)

/-- C10: the entry points can be invoked without a cost model (`TTI = none`);
prevectorization still runs and uses the fixed, constant, target-independent
default vector width (the configured width is `prevectorWidth` for every
cost-model argument, supplied or not). -/
theorem optimizeScheduleNode_default_tti :
    (∀ (opts : Options) (TTI : Option TargetTransformInfo),
        (mkConfig opts TTI).vectorWidth = prevectorWidth)
      ∧ optimizeScheduleNode bandC8 none defaultOpts = c10Result
      ∧ optimizeSchedule bandC8 none defaultOpts = c10Result
      ∧ hasMark "SIMD" c10Result = true :=
  ⟨fun opts TTI => rfl, by decide, by decide, by decide⟩
